import Mathlib

/-!
Verification of the dnd-spellcard-creator repository's page-layout and
text-fitting core against its natural-language specification.

The development shallowly embeds:
* `src/src/pdf_generator.py` — grid layout, back-order mirroring, page
  grouping, cut-ready validation (geometry over `ℚ`, machine ints as `Nat`);
* `src/v2/src/text_renderer.py` — character-budget wrapping, text-height
  computation and the binary-search font-fit solver.  The font-metrics
  backend (PIL `textbbox`) is external to the repository and is modelled as
  an abstract function `Measure : String → Nat → Nat × Nat` returning
  pixel width/height.
* Python's `textwrap.wrap` (standard library, called by `wrap_text`) with
  its default options `break_long_words=True`, `drop_whitespace=True`,
  `replace_whitespace=True`.  Tab-stop expansion and the hyphen-aware
  word-separator refinement are not modelled (no claim involves tabs or
  hyphens; the hyphen rule only subdivides non-space chunks further and
  cannot lengthen an emitted line).
-/

namespace SpellCards

/-! ## Back order (`PDFGenerator._calculate_back_order`, also the identical
`CutReadyPDFGenerator._calculate_back_order`)

For each row the slot indices `[row*cols, …, row*cols + cols - 1]` are
reversed and the rows are concatenated in order. -/

def backOrder (rows cols : Nat) : List Nat :=
  (List.range rows).flatMap fun row =>
    ((List.range cols).map fun c => row * cols + c).reverse

/-- Closed form of the back-order mapping: within the row `i / cols`, the
column is mirrored to `cols - 1 - i % cols`. -/
def backOrderFun (cols i : Nat) : Nat :=
  cols * (i / cols) + (cols - 1 - i % cols)

theorem reverse_range_map (n : Nat) :
    (List.range n).reverse = (List.range n).map (fun i => n - 1 - i) := by
  apply List.ext_getElem
  · simp
  · intro i h1 h2
    simp only [List.getElem_reverse, List.getElem_map, List.getElem_range,
      List.length_range, List.length_reverse]

theorem backOrder_eq_map (rows cols : Nat) :
    backOrder rows cols = (List.range (rows * cols)).map (backOrderFun cols) := by
  induction rows with
  | zero => simp [backOrder]
  | succ r ih =>
    have hsplit : List.range ((r + 1) * cols) =
        List.range (r * cols) ++ (List.range cols).map (fun c => r * cols + c) := by
      rw [Nat.succ_mul, List.range_add]
    rw [hsplit, List.map_append, ← ih]
    unfold backOrder
    rw [List.range_succ, List.flatMap_append]
    congr 1
    simp only [List.flatMap_cons, List.flatMap_nil, List.append_nil]
    rw [← List.map_reverse, reverse_range_map, List.map_map, List.map_map]
    apply List.map_congr_left
    intro c hc
    rw [List.mem_range] at hc
    simp only [Function.comp]
    unfold backOrderFun
    have hpos : 0 < cols := Nat.lt_of_le_of_lt (Nat.zero_le c) hc
    have h1 : (r * cols + c) / cols = r := by
      rw [Nat.mul_comm r cols, Nat.mul_add_div hpos, Nat.div_eq_of_lt hc, Nat.add_zero]
    have h2 : (r * cols + c) % cols = c := by
      rw [Nat.mul_comm r cols, Nat.mul_add_mod]
      exact Nat.mod_eq_of_lt hc
    rw [h1, h2, Nat.mul_comm]

theorem backOrderFun_lt (rows cols i : Nat) (hc : 1 ≤ cols)
    (hi : i < rows * cols) : backOrderFun cols i < rows * cols := by
  unfold backOrderFun
  have hdiv : i / cols < rows := Nat.div_lt_of_lt_mul (by rwa [Nat.mul_comm] at hi)
  have hmod : i % cols < cols := Nat.mod_lt _ hc
  calc cols * (i / cols) + (cols - 1 - i % cols)
      < cols * (i / cols) + cols := by omega
    _ = cols * (i / cols + 1) := by ring
    _ ≤ cols * rows := Nat.mul_le_mul_left _ hdiv
    _ = rows * cols := Nat.mul_comm _ _

theorem backOrderFun_involutive (cols i : Nat) (hc : 1 ≤ cols) :
    backOrderFun cols (backOrderFun cols i) = i := by
  unfold backOrderFun
  have hmod : i % cols < cols := Nat.mod_lt _ hc
  have hsub : cols - 1 - i % cols < cols := by omega
  have h1 : (cols * (i / cols) + (cols - 1 - i % cols)) / cols = i / cols := by
    have h3 : (cols - 1 - i % cols) / cols = 0 := Nat.div_eq_of_lt hsub
    rw [Nat.mul_add_div hc, h3, Nat.add_zero]
  have h2 : (cols * (i / cols) + (cols - 1 - i % cols)) % cols = cols - 1 - i % cols := by
    rw [Nat.mul_add_mod]
    exact Nat.mod_eq_of_lt hsub
  rw [h1, h2]
  have := Nat.div_add_mod i cols
  omega

theorem backOrder_getD (rows cols i : Nat) (hi : i < rows * cols) :
    (backOrder rows cols).getD i 0 = backOrderFun cols i := by
  rw [backOrder_eq_map]
  have hlen : i < ((List.range (rows * cols)).map (backOrderFun cols)).length := by
    simpa using hi
  rw [List.getD_eq_getElem _ _ hlen, List.getElem_map, List.getElem_range]

/-- **C2.** The back-order list is a permutation of the slot indices
`0 … rows*cols - 1`; applying the mapping twice is the identity; and every
index is sent to an index in its own row (`· / cols` is preserved). -/
theorem backOrder_perm_involution (rows cols : Nat)
    (hr : 1 ≤ rows) (hc : 1 ≤ cols) :
    (backOrder rows cols).Perm (List.range (rows * cols)) ∧
    (∀ i, i < rows * cols →
      (backOrder rows cols).getD ((backOrder rows cols).getD i 0) 0 = i) ∧
    (∀ i, i < rows * cols →
      ((backOrder rows cols).getD i 0) / cols = i / cols) := by
  refine ⟨?_, ?_, ?_⟩
  · rw [backOrder_eq_map]
    have hnodup : ((List.range (rows * cols)).map (backOrderFun cols)).Nodup := by
      refine List.Nodup.map_on ?_ (List.nodup_range _)
      intro x hx y hy hxy
      have := congrArg (backOrderFun cols) hxy
      rwa [backOrderFun_involutive _ _ hc, backOrderFun_involutive _ _ hc] at this
    rw [List.perm_ext_iff_of_nodup hnodup (List.nodup_range _)]
    intro a
    simp only [List.mem_map, List.mem_range]
    constructor
    · rintro ⟨i, hi, rfl⟩
      exact backOrderFun_lt rows cols i hc hi
    · intro ha
      exact ⟨backOrderFun cols a, backOrderFun_lt rows cols _ hc ha,
        backOrderFun_involutive _ _ hc⟩
  · intro i hi
    rw [backOrder_getD rows cols i hi,
      backOrder_getD rows cols _ (backOrderFun_lt rows cols i hc hi),
      backOrderFun_involutive _ _ hc]
  · intro i hi
    rw [backOrder_getD rows cols i hi]
    unfold backOrderFun
    have hmod : i % cols < cols := Nat.mod_lt _ hc
    have h3 : (cols - 1 - i % cols) / cols = 0 := Nat.div_eq_of_lt (by omega)
    rw [Nat.mul_add_div hc, h3, Nat.add_zero]

/-- Witness for C2 at the 3×3 grid from the source's docstring example. -/
theorem backOrder_perm_involution_witness :
    (backOrder 3 3).Perm (List.range (3 * 3)) ∧
    (∀ i, i < 3 * 3 →
      (backOrder 3 3).getD ((backOrder 3 3).getD i 0) 0 = i) ∧
    (∀ i, i < 3 * 3 → ((backOrder 3 3).getD i 0) / 3 = i / 3) :=
  backOrder_perm_involution 3 3 (by decide) (by decide)

/-! ## Filename sanitization (`PDFGenerator._sanitize_filename`; the same
code is repeated verbatim in the other two generator classes).

Spaces become underscores, the characters in `<>:"/\|?*'` are removed, and
the result is lower-cased (`Char.toLower` models `str.lower` on the ASCII
names used for files). -/

def unsafeChars : List Char := "<>:\"/\\|?*".data ++ [Char.ofNat 39]

def sanitizeFilename (name : String) : String :=
  let s1 := name.data.map fun c => if c = ' ' then '_' else c
  let s2 := s1.filter fun c => !(unsafeChars.contains c)
  String.mk (s2.map Char.toLower)

/-- `image_dir / f"{safe_name}_{side}.png"` -/
def imagePath (dir name side : String) : String :=
  dir ++ "/" ++ sanitizeFilename name ++ "_" ++ side ++ ".png"

/-! ## Page grouping (`generate_pdf` in both `PDFGenerator` and
`CutReadyPDFGenerator`)

`card_names` is cut into windows of `cards_per_page = rows*cols` names and
the last window is right-padded with `None`.  `cards_per_page = 0` cannot
occur (`GridConfig.__post_init__` requires `rows, cols ≥ 1`); the model
returns `[]` there so that the recursion is well-founded. -/

def padGroup (C : Nat) (g : List String) : List (Option String) :=
  g.map some ++ List.replicate (C - g.length) none

def makeGroups (C : Nat) (cards : List String) : List (List (Option String)) :=
  if h : cards = [] ∨ C = 0 then []
  else padGroup C (cards.take C) :: makeGroups C (cards.drop C)
termination_by cards.length
decreasing_by
  push_neg at h
  simp only [List.length_drop]
  have h1 : 0 < cards.length := List.length_pos.mpr h.1
  have h2 : 0 < C := Nat.pos_of_ne_zero h.2
  omega

/-! ## Page drawing (`PDFGenerator._draw_page`)

The canvas is modelled as the list of `drawImage` events `(slot, path)`
actually issued; `fileExists` abstracts `Path.exists`; the returned second
component is the list of paths appended to `missing_files`, in iteration
order.  `group[idx]` is modelled by `getD idx none`; every call site uses
in-range indices. -/

def drawSlots (fileExists : String → Bool) (dir side : String)
    (group : List (Option String)) :
    List (Nat × Nat) → List (Nat × String) × List String
  | [] => ([], [])
  | (i, idx) :: rest =>
    match group.getD idx none with
    | none => drawSlots fileExists dir side group rest
    | some name =>
      let path := imagePath dir name side
      let r := drawSlots fileExists dir side group rest
      if fileExists path then ((i, path) :: r.1, r.2) else (r.1, path :: r.2)

def drawPage (fileExists : String → Bool) (dir : String)
    (group : List (Option String)) (side : String) (order : List Nat) :
    List (Nat × String) × List String :=
  drawSlots fileExists dir side group order.enum

/-- Statistics dictionary returned by `generate_pdf`, together with the
pages the canvas received (one event list per `showPage`). -/
structure PdfStats where
  pages : List (List (Nat × String))
  totalPages : Nat
  missing : List String
  totalCards : Nat

/-- One loop iteration of `PDFGenerator.generate_pdf`: a front page in
forward order (`order = range(len(group))`) then a back page in
`back_order`. -/
def pageStep (fileExists : String → Bool) (dir : String) (bo : List Nat)
    (acc : List (List (Nat × String)) × List String)
    (g : List (Option String)) :
    List (List (Nat × String)) × List String :=
  let front := drawPage fileExists dir g "front" (List.range g.length)
  let back := drawPage fileExists dir g "back" bo
  (acc.1 ++ [front.1, back.1], acc.2 ++ front.2 ++ back.2)

def generatePdf (fileExists : String → Bool) (dir : String)
    (rows cols : Nat) (cards : List String) : PdfStats :=
  let groups := makeGroups (rows * cols) cards
  let r := groups.foldl (pageStep fileExists dir (backOrder rows cols)) ([], [])
  { pages := r.1, totalPages := groups.length * 2,
    missing := r.2, totalCards := cards.length }

/-- One loop iteration of `CutReadyPDFGenerator.generate_pdf`: groups that
are entirely `None` are skipped.  Guideline/bleed/border strokes are not
image events and are not recorded. -/
def cutPageStep (fileExists : String → Bool) (dir : String) (bo : List Nat)
    (acc : List (List (Nat × String)) × List String)
    (g : List (Option String)) :
    List (List (Nat × String)) × List String :=
  if g.all Option.isNone then acc else pageStep fileExists dir bo acc g

def generatePdfCut (fileExists : String → Bool) (dir : String)
    (rows cols : Nat) (cards : List String) : PdfStats :=
  let groups := makeGroups (rows * cols) cards
  let r := groups.foldl (cutPageStep fileExists dir (backOrder rows cols)) ([], [])
  { pages := r.1, totalPages := groups.length * 2,
    missing := r.2, totalCards := cards.length }

theorem makeGroups_nil (C : Nat) : makeGroups C [] = [] := by
  rw [makeGroups]
  simp

theorem makeGroups_length_aux (C : Nat) (hC : 0 < C) :
    ∀ (n : Nat) (cards : List String), cards.length ≤ n → cards ≠ [] →
      (makeGroups C cards).length = (cards.length + C - 1) / C := by
  intro n
  induction n with
  | zero =>
    intro cards hlen hne
    exact absurd (List.length_eq_zero.mp (Nat.le_zero.mp hlen)) hne
  | succ n ih =>
    intro cards hlen hne
    have hcond : ¬(cards = [] ∨ C = 0) := by
      push_neg
      exact ⟨hne, by omega⟩
    rw [makeGroups, dif_neg hcond]
    simp only [List.length_cons]
    by_cases hbig : C < cards.length
    · have hlendrop : (cards.drop C).length = cards.length - C := List.length_drop _ _
      have hdropne : cards.drop C ≠ [] := by
        apply List.ne_nil_of_length_pos
        omega
      rw [ih (cards.drop C) (by omega) hdropne, hlendrop]
      have h2 : cards.length + C - 1 = (cards.length - 1) + C := by omega
      have h3 : cards.length - C + C - 1 = cards.length - 1 := by omega
      rw [h3, h2, Nat.add_div_right _ hC]
    · have hdrop : cards.drop C = [] := List.drop_eq_nil_of_le (by omega)
      rw [hdrop, makeGroups_nil]
      simp only [List.length_nil]
      have hlow : 0 < cards.length := List.length_pos.mpr hne
      have hone : (cards.length + C - 1) / C = 1 := by
        apply Nat.div_eq_of_lt_le
        · omega
        · omega
      omega

theorem makeGroups_length (C : Nat) (hC : 0 < C) (cards : List String)
    (hne : cards ≠ []) :
    (makeGroups C cards).length = (cards.length + C - 1) / C :=
  makeGroups_length_aux C hC cards.length cards (Nat.le_refl _) hne

theorem makeGroups_form_aux (C : Nat) (hC : 0 < C) :
    ∀ (n : Nat) (cards : List String), cards.length ≤ n →
      ∀ g ∈ makeGroups C cards,
        ∃ chunk : List String, chunk ≠ [] ∧ chunk.length ≤ C ∧
          g = chunk.map some ++ List.replicate (C - chunk.length) none := by
  intro n
  induction n with
  | zero =>
    intro cards hlen g hg
    rw [List.length_eq_zero.mp (Nat.le_zero.mp hlen), makeGroups_nil] at hg
    exact absurd hg (List.not_mem_nil g)
  | succ n ih =>
    intro cards hlen g hg
    by_cases hne : cards = []
    · rw [hne, makeGroups_nil] at hg
      exact absurd hg (List.not_mem_nil g)
    have hcond : ¬(cards = [] ∨ C = 0) := by
      push_neg
      exact ⟨hne, by omega⟩
    rw [makeGroups, dif_neg hcond] at hg
    rcases List.mem_cons.mp hg with hg | hg
    · refine ⟨cards.take C, ?_, ?_, ?_⟩
      · apply List.ne_nil_of_length_pos
        rw [List.length_take]
        have : 0 < cards.length := List.length_pos.mpr hne
        omega
      · rw [List.length_take]
        omega
      · exact hg
    · have hlendrop : (cards.drop C).length = cards.length - C := List.length_drop _ _
      exact ih (cards.drop C) (by omega) g hg

theorem foldl_pageStep_length (fe : String → Bool) (dir : String) (bo : List Nat) :
    ∀ (groups : List (List (Option String)))
      (acc : List (List (Nat × String)) × List String),
      ((groups.foldl (pageStep fe dir bo) acc).1).length = acc.1.length + 2 * groups.length := by
  intro groups
  induction groups with
  | nil => intro acc; simp
  | cons g gs ih =>
    intro acc
    rw [List.foldl_cons, ih]
    simp only [pageStep, List.length_append, List.length_cons]
    simp only [List.length_cons, List.length_nil]
    omega

theorem foldl_cutPageStep_length (fe : String → Bool) (dir : String) (bo : List Nat) :
    ∀ (groups : List (List (Option String)))
      (acc : List (List (Nat × String)) × List String),
      ((groups.foldl (cutPageStep fe dir bo) acc).1).length
        = acc.1.length + 2 * (groups.countP fun g => !(g.all Option.isNone)) := by
  intro groups
  induction groups with
  | nil => intro acc; simp
  | cons g gs ih =>
    intro acc
    rw [List.foldl_cons, ih, List.countP_cons]
    by_cases hall : g.all Option.isNone
    · simp only [cutPageStep, if_pos hall, hall]
      simp
    · simp only [cutPageStep, if_neg hall]
      simp only [pageStep, List.length_append, List.length_cons, List.length_nil]
      simp only [Bool.not_eq_true] at hall
      simp [hall]
      omega

/-- A group produced by `makeGroups` from a non-empty card list always
contains at least one real card, so the all-padding test is never true. -/
theorem makeGroups_not_all_none (C : Nat) (hC : 0 < C) (cards : List String)
    (g : List (Option String)) (hg : g ∈ makeGroups C cards) :
    (g.all Option.isNone) = false := by
  obtain ⟨chunk, hne, _, hform⟩ :=
    makeGroups_form_aux C hC cards.length cards (Nat.le_refl _) g hg
  obtain ⟨c, rest, rfl⟩ := List.exists_cons_of_ne_nil hne
  rw [hform]
  simp

/-- **C4.** For `N ≥ 1` card identifiers and capacity `C = rows*cols`
(`rows, cols ≥ 1`), both generators emit exactly `ceil(N/C)` (front, back)
page pairs — `2*ceil(N/C)` pages on the canvas — and report
`total_pages = 2*ceil(N/C)`; every group (in particular the final one) is
a chunk of real identifiers right-padded with empty slots, so a group
consisting entirely of padding never exists, and the cut-ready skip of
all-padding groups never removes a page pair. -/
theorem generate_pdf_page_count (fe : String → Bool) (dir : String)
    (rows cols : Nat) (cards : List String)
    (hr : 1 ≤ rows) (hc : 1 ≤ cols) (hN : 1 ≤ cards.length) :
    ((generatePdf fe dir rows cols cards).pages.length
        = 2 * ((cards.length + rows * cols - 1) / (rows * cols))) ∧
    ((generatePdfCut fe dir rows cols cards).pages.length
        = 2 * ((cards.length + rows * cols - 1) / (rows * cols))) ∧
    ((generatePdf fe dir rows cols cards).totalPages
        = 2 * ((cards.length + rows * cols - 1) / (rows * cols))) ∧
    ((generatePdfCut fe dir rows cols cards).totalPages
        = 2 * ((cards.length + rows * cols - 1) / (rows * cols))) ∧
    (∀ g ∈ makeGroups (rows * cols) cards,
      ∃ chunk : List String, chunk ≠ [] ∧ chunk.length ≤ rows * cols ∧
        g = chunk.map some ++ List.replicate (rows * cols - chunk.length) none) := by
  have hC : 0 < rows * cols := Nat.mul_pos hr hc
  have hne : cards ≠ [] := by
    apply List.ne_nil_of_length_pos
    omega
  have hlen := makeGroups_length (rows * cols) hC cards hne
  have hcount : ((makeGroups (rows * cols) cards).countP
      fun g => !(g.all Option.isNone)) = (makeGroups (rows * cols) cards).length := by
    rw [List.countP_eq_length]
    intro g hg
    rw [makeGroups_not_all_none (rows * cols) hC cards g hg]
    rfl
  refine ⟨?_, ?_, ?_, ?_, ?_⟩
  · show ((makeGroups (rows * cols) cards).foldl _ ([], [])).1.length = _
    rw [foldl_pageStep_length, hlen]
    simp
  · show ((makeGroups (rows * cols) cards).foldl _ ([], [])).1.length = _
    rw [foldl_cutPageStep_length, hcount, hlen]
    simp
  · show (makeGroups (rows * cols) cards).length * 2 = _
    omega
  · show (makeGroups (rows * cols) cards).length * 2 = _
    omega
  · exact makeGroups_form_aux (rows * cols) hC cards.length cards (Nat.le_refl _)

/-- Witness for C4: three cards on a 2×2 grid produce one front/back pair
(test scenario C of the spec). -/
theorem generate_pdf_page_count_witness :
    ((generatePdf (fun _ => false) "imgs" 2 2 ["a", "b", "c"]).pages.length
        = 2 * ((["a", "b", "c"].length + 2 * 2 - 1) / (2 * 2))) ∧
    ((generatePdfCut (fun _ => false) "imgs" 2 2 ["a", "b", "c"]).pages.length
        = 2 * ((["a", "b", "c"].length + 2 * 2 - 1) / (2 * 2))) ∧
    ((generatePdf (fun _ => false) "imgs" 2 2 ["a", "b", "c"]).totalPages
        = 2 * ((["a", "b", "c"].length + 2 * 2 - 1) / (2 * 2))) ∧
    ((generatePdfCut (fun _ => false) "imgs" 2 2 ["a", "b", "c"]).totalPages
        = 2 * ((["a", "b", "c"].length + 2 * 2 - 1) / (2 * 2))) ∧
    (∀ g ∈ makeGroups (2 * 2) ["a", "b", "c"],
      ∃ chunk : List String, chunk ≠ [] ∧ chunk.length ≤ 2 * 2 ∧
        g = chunk.map some ++ List.replicate (2 * 2 - chunk.length) none) :=
  generate_pdf_page_count (fun _ => false) "imgs" 2 2 ["a", "b", "c"]
    (by decide) (by decide) (by decide)

theorem drawSlots_missing (fe : String → Bool) (dir side : String)
    (group : List (Option String)) :
    ∀ (order : List Nat) (k i : Nat) (name : String),
      i < order.length → group.getD (order.getD i 0) none = some name →
      fe (imagePath dir name side) = false →
      imagePath dir name side ∈ (drawSlots fe dir side group (order.enumFrom k)).2 := by
  intro order
  induction order with
  | nil => intro k i name hi; simp at hi
  | cons o os ih =>
    intro k i name hi hname hfe
    rw [List.enumFrom_cons]
    cases i with
    | zero =>
      simp only [List.getD_cons_zero] at hname
      rw [drawSlots]
      rw [hname]
      simp only [hfe]
      simp
    | succ i =>
      simp only [List.getD_cons_succ] at hname
      simp only [List.length_cons] at hi
      have hrec := ih (k + 1) i name (by omega) hname hfe
      rw [drawSlots]
      cases hid : group.getD o none with
      | none => exact hrec
      | some nm =>
        simp only
        by_cases hfe2 : fe (imagePath dir nm side)
        · simp only [hfe2, if_pos]
          exact hrec
        · simp only [hfe2, if_neg, Bool.false_eq_true, not_false_iff]
          exact List.mem_cons_of_mem _ hrec

theorem drawSlots_events (fe : String → Bool) (dir side : String)
    (group : List (Option String)) :
    ∀ (order : List Nat) (k : Nat) (e : Nat × String),
      e ∈ (drawSlots fe dir side group (order.enumFrom k)).1 →
      ∃ j name, j < order.length ∧ e.1 = k + j ∧
        group.getD (order.getD j 0) none = some name ∧
        e.2 = imagePath dir name side ∧ fe (imagePath dir name side) = true := by
  intro order
  induction order with
  | nil => intro k e he; simp [drawSlots] at he
  | cons o os ih =>
    intro k e he
    rw [List.enumFrom_cons, drawSlots] at he
    cases hid : group.getD o none with
    | none =>
      rw [hid] at he
      obtain ⟨j, name, hj, he1, hname, he2, hfe⟩ := ih (k + 1) e he
      exact ⟨j + 1, name, by simpa using Nat.succ_lt_succ hj, by omega,
        by simpa using hname, he2, hfe⟩
    | some nm =>
      rw [hid] at he
      simp only at he
      by_cases hfe2 : fe (imagePath dir nm side)
      · rw [if_pos hfe2] at he
        rcases List.mem_cons.mp he with he | he
        · refine ⟨0, nm, by simp, ?_, by simpa using hid, ?_, hfe2⟩
          · rw [he]
            simp
          · rw [he]
        · obtain ⟨j, name, hj, he1, hname, he2, hfe⟩ := ih (k + 1) e he
          exact ⟨j + 1, name, by simpa using Nat.succ_lt_succ hj, by omega,
            by simpa using hname, he2, hfe⟩
      · rw [if_neg hfe2] at he
        obtain ⟨j, name, hj, he1, hname, he2, hfe⟩ := ih (k + 1) e he
        exact ⟨j + 1, name, by simpa using Nat.succ_lt_succ hj, by omega,
          by simpa using hname, he2, hfe⟩

/-- **C9.** A missing image never aborts generation: the page count does not
depend on which files exist, and on any page draw, a slot whose image file
is absent is left blank (no draw event for that slot position) while the
slot's path is appended to the missing list. -/
theorem missing_image_tolerated :
    (∀ (fe fe' : String → Bool) (dir : String) (rows cols : Nat)
        (cards : List String),
      (generatePdf fe dir rows cols cards).pages.length
        = (generatePdf fe' dir rows cols cards).pages.length) ∧
    (∀ (fe : String → Bool) (dir : String) (group : List (Option String))
        (side : String) (order : List Nat) (i : Nat) (name : String),
      i < order.length →
      group.getD (order.getD i 0) none = some name →
      fe (imagePath dir name side) = false →
      imagePath dir name side ∈ (drawPage fe dir group side order).2 ∧
        ∀ e ∈ (drawPage fe dir group side order).1, e.1 ≠ i) := by
  constructor
  · intro fe fe' dir rows cols cards
    show ((makeGroups (rows * cols) cards).foldl _ ([], [])).1.length
      = ((makeGroups (rows * cols) cards).foldl _ ([], [])).1.length
    rw [foldl_pageStep_length, foldl_pageStep_length]
  · intro fe dir group side order i name hi hname hfe
    constructor
    · exact drawSlots_missing fe dir side group order 0 i name hi hname hfe
    · intro e he hei
      obtain ⟨j, nm, hj, he1, hnm, he2, hfe2⟩ :=
        drawSlots_events fe dir side group order 0 e he
      have hj' : j = i := by omega
      rw [hj'] at hnm
      rw [hname] at hnm
      cases hnm
      rw [hfe] at hfe2
      exact Bool.false_ne_true hfe2

/-- Witness for C9: one card whose back image is absent — the path is
reported missing and the slot stays blank. -/
theorem missing_image_tolerated_witness :
    ((generatePdf (fun _ => false) "imgs" 1 1 ["Fire Ball"]).pages.length
      = (generatePdf (fun _ => true) "imgs" 1 1 ["Fire Ball"]).pages.length) ∧
    (imagePath "imgs" "Fire Ball" "back"
        ∈ (drawPage (fun _ => false) "imgs" [some "Fire Ball"] "back" [0]).2 ∧
      ∀ e ∈ (drawPage (fun _ => false) "imgs" [some "Fire Ball"] "back" [0]).1,
        e.1 ≠ 0) :=
  ⟨missing_image_tolerated.1 (fun _ => false) (fun _ => true) "imgs" 1 1 ["Fire Ball"],
   missing_image_tolerated.2 (fun _ => false) "imgs" [some "Fire Ball"] "back" [0] 0
     "Fire Ball" (by decide) (by decide) (by decide)⟩

/-! ## Page geometry (`GridConfig`, `PDFGenerator._calculate_card_dimensions`,
`_calculate_positions`, `CutReadyPDFGenerator`)

ReportLab floats are modelled exactly over `ℚ`:
`mm = 72/25.4 = 360/127` points and `A4 = (210*mm, 297*mm)`. -/

def mmPt : ℚ := 360 / 127

def a4Width : ℚ := 210 * mmPt

def a4Height : ℚ := 297 * mmPt

/-- `CARD_ASPECT_RATIO = 210 / 298` (width / height of an A7-style card). -/
def cardAspectRatio : ℚ := 210 / 298

structure GridCfg where
  rows : Nat
  cols : Nat
  landscape : Bool
  margin : ℚ
  gapX : ℚ
  gapY : ℚ
deriving DecidableEq

def pageW (cfg : GridCfg) : ℚ := if cfg.landscape then a4Height else a4Width

def pageH (cfg : GridCfg) : ℚ := if cfg.landscape then a4Width else a4Height

def availWidth (cfg : GridCfg) : ℚ :=
  pageW cfg - 2 * cfg.margin - ((cfg.cols : ℚ) - 1) * cfg.gapX

def availHeight (cfg : GridCfg) : ℚ :=
  pageH cfg - 2 * cfg.margin - ((cfg.rows : ℚ) - 1) * cfg.gapY

/-- `_calculate_card_dimensions`: width-derived card size, rescaled from the
height when the height-derived total exceeds the available height. -/
def cardDims (cfg : GridCfg) : ℚ × ℚ :=
  if availHeight cfg <
      availWidth cfg / (cfg.cols : ℚ) / cardAspectRatio * (cfg.rows : ℚ)
        + ((cfg.rows : ℚ) - 1) * cfg.gapY then
    (availHeight cfg / (cfg.rows : ℚ) * cardAspectRatio,
     availHeight cfg / (cfg.rows : ℚ))
  else
    (availWidth cfg / (cfg.cols : ℚ),
     availWidth cfg / (cfg.cols : ℚ) / cardAspectRatio)

/-- `_calculate_positions` (shared formula of the grid and cut-ready
planners): the grid of `rows × cols` cards of size `cw × ch` is centered on
the page; slots are listed row-major from the bottom-left. -/
def gridPositions (cfg : GridCfg) (cw ch : ℚ) : List (ℚ × ℚ) :=
  (List.range cfg.rows).flatMap fun (row : Nat) =>
    (List.range cfg.cols).map fun (col : Nat) =>
      ((pageW cfg - ((cfg.cols : ℚ) * cw + ((cfg.cols : ℚ) - 1) * cfg.gapX)) / 2
          + (col : ℚ) * (cw + cfg.gapX),
       (pageH cfg - ((cfg.rows : ℚ) * ch + ((cfg.rows : ℚ) - 1) * cfg.gapY)) / 2
          + (row : ℚ) * (ch + cfg.gapY))

def positionsOf (cfg : GridCfg) : List (ℚ × ℚ) :=
  gridPositions cfg (cardDims cfg).1 (cardDims cfg).2

/-! ### Cut-ready generator (`CutReadyPDFGenerator.__init__`,
`_validate_grid_fits`) -/

/-- `CARD_WIDTH_MM = 63.5` in points (exactly 180). -/
def cutCardWidth : ℚ := (635 / 10) * mmPt

/-- `CARD_HEIGHT_MM = 88.5` in points. -/
def cutCardHeight : ℚ := (885 / 10) * mmPt

/-- `BLEED_MM = 1.5` in points. -/
def cutBleed : ℚ := (15 / 10) * mmPt

def cutGridWidth (cfg : GridCfg) : ℚ :=
  (cfg.cols : ℚ) * cutCardWidth + ((cfg.cols : ℚ) - 1) * cfg.gapX

def cutGridHeight (cfg : GridCfg) : ℚ :=
  (cfg.rows : ℚ) * cutCardHeight + ((cfg.rows : ℚ) - 1) * cfg.gapY

def cutTotalWidth (cfg : GridCfg) : ℚ := cutGridWidth cfg + 2 * cfg.margin

def cutTotalHeight (cfg : GridCfg) : ℚ := cutGridHeight cfg + 2 * cfg.margin

structure CutPlan where
  cardWidth : ℚ
  cardHeight : ℚ
  bleed : ℚ
  positions : List (ℚ × ℚ)
  backOrd : List Nat
deriving DecidableEq

/-- `CutReadyPDFGenerator.__init__`: fixed card size in points, positions and
back order are computed, then `_validate_grid_fits` raises `ValueError`
(modelled as `Except.error`) when the grid plus margins exceeds the page.
No drawing happens during construction; a failed construction yields no
plan at all. -/
def cutReadyInit (cfg : GridCfg) : Except String CutPlan :=
  let plan : CutPlan :=
    { cardWidth := cutCardWidth
      cardHeight := cutCardHeight
      bleed := cutBleed
      positions := gridPositions cfg cutCardWidth cutCardHeight
      backOrd := backOrder cfg.rows cfg.cols }
  if pageW cfg < cutTotalWidth cfg ∨ pageH cfg < cutTotalHeight cfg then
    Except.error "Grid with fixed card dimensions does not fit on page"
  else Except.ok plan

/-- **C5.** Constructing a cut-ready plan succeeds exactly when the
fixed-size grid plus margins fits inside the page (otherwise the
constructor fails with a configuration error, before anything is drawn),
and a successful construction keeps the fixed card dimensions unclamped. -/
theorem cutready_validation (cfg : GridCfg) :
    ((∃ p, cutReadyInit cfg = Except.ok p) ↔
      cutTotalWidth cfg ≤ pageW cfg ∧ cutTotalHeight cfg ≤ pageH cfg) ∧
    (∀ p, cutReadyInit cfg = Except.ok p →
      p.cardWidth = cutCardWidth ∧ p.cardHeight = cutCardHeight ∧
      p.positions = gridPositions cfg cutCardWidth cutCardHeight) := by
  by_cases hcond : pageW cfg < cutTotalWidth cfg ∨ pageH cfg < cutTotalHeight cfg
  · constructor
    · constructor
      · rintro ⟨p, hp⟩
        rw [cutReadyInit, if_pos hcond] at hp
        exact absurd hp (by simp)
      · intro hfit
        rcases hcond with h | h
        · exact absurd hfit.1 (not_le.mpr h)
        · exact absurd hfit.2 (not_le.mpr h)
    · intro p hp
      rw [cutReadyInit, if_pos hcond] at hp
      exact absurd hp (by simp)
  · push_neg at hcond
    constructor
    · constructor
      · intro _
        exact hcond
      · intro _
        exact ⟨CutPlan.mk cutCardWidth cutCardHeight cutBleed
          (gridPositions cfg cutCardWidth cutCardHeight)
          (backOrder cfg.rows cfg.cols),
          by rw [cutReadyInit, if_neg (by push_neg; exact hcond)]⟩
    · intro p hp
      rw [cutReadyInit, if_neg (by push_neg; exact hcond)] at hp
      cases hp
      exact ⟨rfl, rfl, rfl⟩

/-- Witness for C5: a 2×2 cut-ready grid with 10pt margin and 5pt gaps fits
on portrait A4 and construction succeeds with the fixed card size. -/
theorem cutready_validation_witness :
    (∃ p, cutReadyInit
        { rows := 2, cols := 2, landscape := false,
          margin := 10, gapX := 5, gapY := 5 } = Except.ok p) ∧
    ((cutReadyInit
        { rows := 2, cols := 2, landscape := false,
          margin := 10, gapX := 5, gapY := 5 }).map CutPlan.cardWidth
      = Except.ok cutCardWidth) := by
  have h := cutready_validation
    { rows := 2, cols := 2, landscape := false, margin := 10, gapX := 5, gapY := 5 }
  have hfit : cutTotalWidth
        { rows := 2, cols := 2, landscape := false, margin := 10, gapX := 5, gapY := 5 }
      ≤ pageW { rows := 2, cols := 2, landscape := false, margin := 10, gapX := 5, gapY := 5 } ∧
      cutTotalHeight
        { rows := 2, cols := 2, landscape := false, margin := 10, gapX := 5, gapY := 5 }
      ≤ pageH { rows := 2, cols := 2, landscape := false, margin := 10, gapX := 5, gapY := 5 } := by
    constructor
    · show (2 : ℚ) * cutCardWidth + (2 - 1) * 5 + 2 * 10 ≤ a4Width
      rw [cutCardWidth, mmPt, a4Width, mmPt]
      norm_num
    · show (2 : ℚ) * cutCardHeight + (2 - 1) * 5 + 2 * 10 ≤ a4Height
      rw [cutCardHeight, mmPt, a4Height, mmPt]
      norm_num
  obtain ⟨p, hp⟩ := h.1.mpr hfit
  refine ⟨⟨p, hp⟩, ?_⟩
  rw [hp]
  have := (h.2 p hp).1
  rw [Except.map, this]

theorem gridPositions_mem (cfg : GridCfg) (cw ch : ℚ) (p : ℚ × ℚ)
    (hp : p ∈ gridPositions cfg cw ch) :
    ∃ row col : Nat, row < cfg.rows ∧ col < cfg.cols ∧
      p.1 = (pageW cfg - ((cfg.cols : ℚ) * cw + ((cfg.cols : ℚ) - 1) * cfg.gapX)) / 2
        + (col : ℚ) * (cw + cfg.gapX) ∧
      p.2 = (pageH cfg - ((cfg.rows : ℚ) * ch + ((cfg.rows : ℚ) - 1) * cfg.gapY)) / 2
        + (row : ℚ) * (ch + cfg.gapY) := by
  rw [gridPositions] at hp
  obtain ⟨row, hrow, hpm⟩ := List.mem_flatMap.mp hp
  obtain ⟨col, hcol, hpe⟩ := List.mem_map.mp hpm
  rw [List.mem_range] at hrow hcol
  refine ⟨row, col, hrow, hcol, ?_, ?_⟩
  · rw [← hpe]
  · rw [← hpe]

theorem gridPositions_bounds (cfg : GridCfg) (cw ch : ℚ)
    (hcw : 0 ≤ cw) (hch : 0 ≤ ch)
    (hgx : 0 ≤ cfg.gapX) (hgy : 0 ≤ cfg.gapY)
    (hw : (cfg.cols : ℚ) * cw + ((cfg.cols : ℚ) - 1) * cfg.gapX
        ≤ pageW cfg - 2 * cfg.margin)
    (hh : (cfg.rows : ℚ) * ch + ((cfg.rows : ℚ) - 1) * cfg.gapY
        ≤ pageH cfg - 2 * cfg.margin) :
    ∀ p ∈ gridPositions cfg cw ch,
      cfg.margin ≤ p.1 ∧ p.1 + cw ≤ pageW cfg - cfg.margin ∧
      cfg.margin ≤ p.2 ∧ p.2 + ch ≤ pageH cfg - cfg.margin := by
  intro p hp
  obtain ⟨row, col, hrow, hcol, hp1, hp2⟩ := gridPositions_mem cfg cw ch p hp
  have hcolq : (col : ℚ) + 1 ≤ (cfg.cols : ℚ) := by
    have : (col : ℚ) < (cfg.cols : ℚ) := by exact_mod_cast hcol
    have hint : ((col + 1 : ℕ) : ℚ) ≤ (cfg.cols : ℚ) := by exact_mod_cast hcol
    push_cast at hint
    linarith
  have hrowq : (row : ℚ) + 1 ≤ (cfg.rows : ℚ) := by
    have hint : ((row + 1 : ℕ) : ℚ) ≤ (cfg.rows : ℚ) := by exact_mod_cast hrow
    push_cast at hint
    linarith
  have hcol0 : (0 : ℚ) ≤ (col : ℚ) := Nat.cast_nonneg _
  have hrow0 : (0 : ℚ) ≤ (row : ℚ) := Nat.cast_nonneg _
  refine ⟨?_, ?_, ?_, ?_⟩
  · rw [hp1]
    nlinarith
  · rw [hp1]
    nlinarith [mul_nonneg (by linarith : (0:ℚ) ≤ (cfg.cols : ℚ) - 1 - (col : ℚ))
      (by linarith : (0:ℚ) ≤ cw + cfg.gapX)]
  · rw [hp2]
    nlinarith
  · rw [hp2]
    nlinarith [mul_nonneg (by linarith : (0:ℚ) ≤ (cfg.rows : ℚ) - 1 - (row : ℚ))
      (by linarith : (0:ℚ) ≤ ch + cfg.gapY)]

theorem cardDims_bounds (cfg : GridCfg)
    (hr : 1 ≤ cfg.rows) (hc : 1 ≤ cfg.cols)
    (hgx : 0 ≤ cfg.gapX) (hgy : 0 ≤ cfg.gapY)
    (haw : 0 < availWidth cfg) (hah : 0 < availHeight cfg)
    (hnoenlarge : availHeight cfg <
        availWidth cfg / (cfg.cols : ℚ) / cardAspectRatio * (cfg.rows : ℚ)
          + ((cfg.rows : ℚ) - 1) * cfg.gapY →
      availHeight cfg / (cfg.rows : ℚ)
        ≤ availWidth cfg / (cfg.cols : ℚ) / cardAspectRatio) :
    0 ≤ (cardDims cfg).1 ∧ 0 ≤ (cardDims cfg).2 ∧
    (cfg.cols : ℚ) * (cardDims cfg).1 + ((cfg.cols : ℚ) - 1) * cfg.gapX
      ≤ pageW cfg - 2 * cfg.margin ∧
    (cfg.rows : ℚ) * (cardDims cfg).2 + ((cfg.rows : ℚ) - 1) * cfg.gapY
      ≤ pageH cfg - 2 * cfg.margin := by
  have hrq : (1 : ℚ) ≤ (cfg.rows : ℚ) := by exact_mod_cast hr
  have hcq : (1 : ℚ) ≤ (cfg.cols : ℚ) := by exact_mod_cast hc
  have hrpos : (0 : ℚ) < (cfg.rows : ℚ) := by linarith
  have hcpos : (0 : ℚ) < (cfg.cols : ℚ) := by linarith
  have hratio : (0 : ℚ) < cardAspectRatio := by rw [cardAspectRatio]; norm_num
  have hawpage : availWidth cfg = pageW cfg - 2 * cfg.margin
      - ((cfg.cols : ℚ) - 1) * cfg.gapX := rfl
  have hahpage : availHeight cfg = pageH cfg - 2 * cfg.margin
      - ((cfg.rows : ℚ) - 1) * cfg.gapY := rfl
  have hprodY : 0 ≤ ((cfg.rows : ℚ) - 1) * cfg.gapY :=
    mul_nonneg (by linarith) hgy
  have hprodX : 0 ≤ ((cfg.cols : ℚ) - 1) * cfg.gapX :=
    mul_nonneg (by linarith) hgx
  by_cases hscale : availHeight cfg <
      availWidth cfg / (cfg.cols : ℚ) / cardAspectRatio * (cfg.rows : ℚ)
        + ((cfg.rows : ℚ) - 1) * cfg.gapY
  · rw [cardDims, if_pos hscale]
    dsimp only
    refine ⟨mul_nonneg (div_nonneg hah.le hrpos.le) hratio.le,
      div_nonneg hah.le hrpos.le, ?_, ?_⟩
    · have hkey : availHeight cfg / (cfg.rows : ℚ) * cardAspectRatio
          ≤ availWidth cfg / (cfg.cols : ℚ) := by
        have := mul_le_mul_of_nonneg_right (hnoenlarge hscale) hratio.le
        rwa [div_mul_cancel₀ _ (ne_of_gt hratio)] at this
      have hmul := mul_le_mul_of_nonneg_left hkey hcpos.le
      rw [mul_comm ((cfg.cols : ℚ)) (availWidth cfg / (cfg.cols : ℚ)),
        div_mul_cancel₀ _ (ne_of_gt hcpos)] at hmul
      linarith
    · rw [mul_comm ((cfg.rows : ℚ)) (availHeight cfg / (cfg.rows : ℚ)),
        div_mul_cancel₀ _ (ne_of_gt hrpos)]
      linarith
  · rw [cardDims, if_neg hscale]
    dsimp only
    push_neg at hscale
    refine ⟨div_nonneg haw.le hcpos.le,
      div_nonneg (div_nonneg haw.le hcpos.le) hratio.le, ?_, ?_⟩
    · rw [mul_comm ((cfg.cols : ℚ)) (availWidth cfg / (cfg.cols : ℚ)),
        div_mul_cancel₀ _ (ne_of_gt hcpos)]
      linarith
    · have := hscale
      rw [mul_comm (availWidth cfg / (cfg.cols : ℚ) / cardAspectRatio)
        ((cfg.rows : ℚ))] at this
      linarith

/-- **C10 (amended).** Under nonnegative margin and gaps, positive available
width/height and the proviso that the height rescale never enlarges the
cards (whenever the rescale triggers, `availHeight/rows ≤
(availWidth/cols)/aspect`), every slot rectangle of the scale-to-fit grid
stays at least `margin` away from every page edge. -/
theorem grid_slots_within_margin (cfg : GridCfg)
    (hr : 1 ≤ cfg.rows) (hc : 1 ≤ cfg.cols)
    (hgx : 0 ≤ cfg.gapX) (hgy : 0 ≤ cfg.gapY)
    (haw : 0 < availWidth cfg) (hah : 0 < availHeight cfg)
    (hnoenlarge : availHeight cfg <
        availWidth cfg / (cfg.cols : ℚ) / cardAspectRatio * (cfg.rows : ℚ)
          + ((cfg.rows : ℚ) - 1) * cfg.gapY →
      availHeight cfg / (cfg.rows : ℚ)
        ≤ availWidth cfg / (cfg.cols : ℚ) / cardAspectRatio) :
    ∀ p ∈ positionsOf cfg,
      cfg.margin ≤ p.1 ∧ p.1 + (cardDims cfg).1 ≤ pageW cfg - cfg.margin ∧
      cfg.margin ≤ p.2 ∧ p.2 + (cardDims cfg).2 ≤ pageH cfg - cfg.margin := by
  obtain ⟨h1, h2, h3, h4⟩ := cardDims_bounds cfg hr hc hgx hgy haw hah hnoenlarge
  exact gridPositions_bounds cfg (cardDims cfg).1 (cardDims cfg).2 h1 h2 hgx hgy h3 h4

/-- The default 3×3 portrait grid of the source (`margin 20`, gaps 10). -/
def cfgDefault : GridCfg := GridCfg.mk 3 3 false 20 10 10

/-- A 2×10 portrait grid with a 500pt vertical gap: the configuration that
breaks the containment claim. -/
def cfgOverflow : GridCfg := GridCfg.mk 2 10 false 0 0 500

/-- The bottom-left slot (row 0, column 0) of a centered grid. -/
def slot0 (cfg : GridCfg) (cw ch : ℚ) : ℚ × ℚ :=
  ((pageW cfg - ((cfg.cols : ℚ) * cw + ((cfg.cols : ℚ) - 1) * cfg.gapX)) / 2
      + ((0 : ℕ) : ℚ) * (cw + cfg.gapX),
   (pageH cfg - ((cfg.rows : ℚ) * ch + ((cfg.rows : ℚ) - 1) * cfg.gapY)) / 2
      + ((0 : ℕ) : ℚ) * (ch + cfg.gapY))

theorem gridPositions_mem_slot0 (cfg : GridCfg) (cw ch : ℚ)
    (hr : 0 < cfg.rows) (hc : 0 < cfg.cols) :
    slot0 cfg cw ch ∈ gridPositions cfg cw ch := by
  unfold gridPositions slot0
  exact List.mem_flatMap.mpr ⟨0, List.mem_range.mpr hr,
    List.mem_map.mpr ⟨0, List.mem_range.mpr hc, rfl⟩⟩

/-- Witness for the amended C10 at the source's default 3×3 portrait grid,
instantiated at the bottom-left slot. -/
theorem grid_slots_within_margin_witness :
    cfgDefault.margin ≤ (slot0 cfgDefault (cardDims cfgDefault).1 (cardDims cfgDefault).2).1 ∧
    (slot0 cfgDefault (cardDims cfgDefault).1 (cardDims cfgDefault).2).1
        + (cardDims cfgDefault).1 ≤ pageW cfgDefault - cfgDefault.margin ∧
    cfgDefault.margin ≤ (slot0 cfgDefault (cardDims cfgDefault).1 (cardDims cfgDefault).2).2 ∧
    (slot0 cfgDefault (cardDims cfgDefault).1 (cardDims cfgDefault).2).2
        + (cardDims cfgDefault).2 ≤ pageH cfgDefault - cfgDefault.margin :=
  grid_slots_within_margin cfgDefault
    (by decide) (by decide) (by norm_num [cfgDefault]) (by norm_num [cfgDefault])
    (by norm_num [availWidth, pageW, a4Width, mmPt, cfgDefault])
    (by norm_num [availHeight, pageH, a4Height, mmPt, cfgDefault])
    (by norm_num [availWidth, availHeight, pageW, pageH, a4Width, a4Height,
        mmPt, cardAspectRatio, cfgDefault])
    (slot0 cfgDefault (cardDims cfgDefault).1 (cardDims cfgDefault).2)
    (gridPositions_mem_slot0 cfgDefault (cardDims cfgDefault).1 (cardDims cfgDefault).2
      (by decide) (by decide))

/-- **C10 counterexample.** The 2×10 portrait grid with zero margin, zero
horizontal gap and a 500pt vertical gap satisfies every hypothesis of the
claim (nonnegative margin and gaps, positive available width and height),
yet the height rescale *enlarges* the cards and the first slot's x
coordinate is negative — outside the page, let alone outside the margin. -/
theorem grid_slots_within_margin_counterexample :
    0 ≤ cfgOverflow.margin ∧ 0 ≤ cfgOverflow.gapX ∧ 0 ≤ cfgOverflow.gapY ∧
    0 < availWidth cfgOverflow ∧ 0 < availHeight cfgOverflow ∧
    ∃ p ∈ positionsOf cfgOverflow, p.1 < cfgOverflow.margin := by
  have hcond : availHeight cfgOverflow <
      availWidth cfgOverflow / (cfgOverflow.cols : ℚ) / cardAspectRatio
        * (cfgOverflow.rows : ℚ)
        + ((cfgOverflow.rows : ℚ) - 1) * cfgOverflow.gapY := by
    norm_num [availWidth, availHeight, pageW, pageH, a4Width, a4Height,
      mmPt, cardAspectRatio, cfgOverflow]
  have hcd : cardDims cfgOverflow =
      (availHeight cfgOverflow / (cfgOverflow.rows : ℚ) * cardAspectRatio,
       availHeight cfgOverflow / (cfgOverflow.rows : ℚ)) := by
    rw [cardDims, if_pos hcond]
  refine ⟨by norm_num [cfgOverflow], by norm_num [cfgOverflow],
    by norm_num [cfgOverflow], ?_, ?_, ?_⟩
  · norm_num [availWidth, pageW, a4Width, mmPt, cfgOverflow]
  · norm_num [availHeight, pageH, a4Height, mmPt, cfgOverflow]
  · refine ⟨_, gridPositions_mem_slot0 cfgOverflow
      (cardDims cfgOverflow).1 (cardDims cfgOverflow).2
      (by decide) (by decide), ?_⟩
    rw [hcd]
    norm_num [slot0, availWidth, availHeight, pageW, pageH, a4Width, a4Height,
      mmPt, cardAspectRatio, cfgOverflow]

/-! ## Text renderer (`src/v2/src/text_renderer.py`)

Font metrics are the external PIL backend, abstracted as a function from
(single-line) text and integer font size to pixel `(width, height)`. -/

/-- `measure_text(text, font_size) -> (width, height)`. -/
def Measure : Type := String → Nat → Nat × Nat

/-- `calculate_wrap_width`: measure the reference glyph `"M"`, guard the
zero-width case, floor-divide and clamp to at least one character.
(`int(max_width / char_width)` on Python floats equals the integer floor
division for these nonnegative integer pixel values.) -/
def calculateWrapWidth (M : Measure) (fontSize maxWidth : Nat) : Nat :=
  let charWidth := (M "M" fontSize).1
  if charWidth = 0 then 1 else max 1 (maxWidth / charWidth)

/-! ### Python `textwrap.wrap` with the default `TextWrapper` options
(`break_long_words=True`, `drop_whitespace=True`, `replace_whitespace=True`,
no indents, `max_lines=None`).  Tab-stop expansion (`expandtabs`) and the
`break_on_hyphens` refinement of the word separator are not modelled: no
claim involves tabs, and splitting a non-space chunk after a hyphen only
refines the chunks, never lengthening an emitted line. -/

/-- `_munge_whitespace` with `replace_whitespace=True`: each whitespace
control character becomes a single space. -/
def mungeWhitespace (s : List Char) : List Char :=
  s.map fun c =>
    if c = Char.ofNat 9 ∨ c = Char.ofNat 10 ∨ c = Char.ofNat 11 ∨
        c = Char.ofNat 12 ∨ c = Char.ofNat 13 then ' ' else c

/-- `_split`: cut the munged text into maximal runs of spaces and maximal
runs of non-spaces (whitespace chunks are kept; they are dropped later by
`drop_whitespace` handling). -/
def splitChunks : List Char → List (List Char)
  | [] => []
  | c :: cs =>
    match splitChunks cs with
    | [] => [[c]]
    | [] :: gs => [c] :: [] :: gs
    | (d :: ds) :: gs =>
      if ((c == ' ') == (d == ' ')) = true then (c :: d :: ds) :: gs
      else [c] :: (d :: ds) :: gs

def sumLen (chunks : List (List Char)) : Nat := (chunks.map List.length).sum

/-- The inner `while` of `_wrap_chunks`: move chunks onto the current line
while `cur_len + len(chunk) <= width`. -/
def greedyTake (width : Nat) : Nat → List (List Char) → List (List Char) × List (List Char)
  | _, [] => ([], [])
  | curLen, c :: cs =>
    if curLen + c.length ≤ width then
      let r := greedyTake width (curLen + c.length) cs
      (c :: r.1, r.2)
    else ([], c :: cs)

/-- `_handle_long_word` with `break_long_words=True`: the first
`space_left` characters go onto the current line and the remainder becomes
the next pending chunk. -/
def handleLongWord (width curLen : Nat) (chunk : List Char) : List Char × List Char :=
  let spaceLeft := if width < 1 then 1 else width - curLen
  (chunk.take spaceLeft, chunk.drop spaceLeft)

def isSpaceRun (c : List Char) : Bool := c.all (· == ' ')

/-- Greedy fill then long-word breaking: the current line's chunks and the
remaining chunks after one line has been filled. -/
def fillLine (width : Nat) (chunks : List (List Char)) : List (List Char) × List (List Char) :=
  match (greedyTake width 0 chunks).2 with
  | [] => ((greedyTake width 0 chunks).1, [])
  | c :: cs =>
    if width < c.length then
      ((greedyTake width 0 chunks).1 ++
        [(handleLongWord width (sumLen (greedyTake width 0 chunks).1) c).1],
       (handleLongWord width (sumLen (greedyTake width 0 chunks).1) c).2 :: cs)
    else ((greedyTake width 0 chunks).1, c :: cs)

/-- `drop_whitespace` handling at the end of a line: delete one trailing
whitespace chunk (an empty chunk left by a zero-`space_left` long-word
break counts as whitespace, as in `''.strip() == ''`). -/
def dropTrailingWs (l : List (List Char)) : List (List Char) :=
  if isSpaceRun (l.getLastD []) then l.dropLast else l

/-- One outer `while chunks:` iteration of `_wrap_chunks`: drop a leading
whitespace chunk (except before the first line), fill greedily, break a
too-long head chunk, drop a trailing whitespace chunk, and emit the joined
line if it is non-empty. -/
def wrapStep (width : Nat) (chunks lines : List (List Char)) :
    List (List Char) × List (List Char) :=
  match chunks with
  | [] => ([], lines)
  | c0 :: cs0 =>
    let st := fillLine width (if !lines.isEmpty && isSpaceRun c0 then cs0 else c0 :: cs0)
    let curLine := dropTrailingWs st.1
    if curLine.isEmpty then (st.2, lines) else (st.2, lines ++ [curLine.flatten])

/-- The outer loop of `_wrap_chunks`, driven by fuel (`textwrapWrap`
supplies enough for the loop to run to completion). -/
def wrapChunksLoop (width : Nat) : Nat → List (List Char) → List (List Char) → List (List Char)
  | 0, _, lines => lines
  | _ + 1, [], lines => lines
  | fuel + 1, c0 :: cs0, lines =>
    wrapChunksLoop width fuel (wrapStep width (c0 :: cs0) lines).1
      (wrapStep width (c0 :: cs0) lines).2

/-- `textwrap.wrap(text, width)` under the default options (see above). -/
def textwrapWrap (width : Nat) (text : String) : List String :=
  let chunks := splitChunks (mungeWhitespace text.data)
  (wrapChunksLoop width (sumLen chunks + chunks.length + 1) chunks []).map
    fun l => String.mk l

/-- Python `str.splitlines` for `\n`-separated text, on the character
list: a trailing newline does not produce a final empty part (the rarer
line-boundary characters are not modelled — card text uses `\n` only). -/
def splitlinesChars : List Char → List (List Char)
  | [] => []
  | c :: cs =>
    if c = Char.ofNat 10 then [] :: splitlinesChars cs
    else
      match splitlinesChars cs with
      | [] => [[c]]
      | p :: ps => (c :: p) :: ps

def splitlines (s : String) : List String :=
  (splitlinesChars s.data).map fun l => String.mk l

/-- `TextRenderer.wrap_text`: split into paragraphs, wrap each non-blank
paragraph at the character budget, and keep a `none` marker for each
blank/whitespace-only paragraph. -/
def wrapText (text : String) (wrapWidth : Nat) : List (Option String) :=
  (splitlines text).foldl
    (fun lines para =>
      if para.data.any (fun c => !c.isWhitespace) then
        lines ++ (textwrapWrap wrapWidth para).map some
      else lines ++ [none])
    []

/-- Is the final wrapped entry a text line (`lines[-1] is not None`)? -/
def lastIsText (lines : List (Option String)) : Bool :=
  match lines.getLast? with
  | some (some _) => true
  | _ => false

/-- `calculate_text_height`: accumulate `line_height + line_spacing` per
text line and `paragraph_spacing` per break marker, then remove one
trailing `line_spacing` when the total is positive and the final entry is a
text line.  Heights are Python ints, modelled as `Int`. -/
def calculateTextHeight (M : Measure) (lines : List (Option String))
    (fontSize : Nat) (lineSpacing paragraphSpacing : Int) : Int :=
  let total := lines.foldl
    (fun acc l =>
      match l with
      | none => acc + paragraphSpacing
      | some s => acc + (((M s fontSize).2 : Int) + lineSpacing))
    0
  if 0 < total ∧ lines ≠ [] ∧ lastIsText lines = true then total - lineSpacing
  else total

/-- Step 3 of `find_optimal_font_size`: every wrapped text line's measured
pixel width fits in `max_width`. -/
def linesFitWidth (M : Measure) (lines : List (Option String))
    (fontSize maxWidth : Nat) : Bool :=
  lines.all fun l =>
    match l with
    | none => true
    | some s => decide ((M s fontSize).1 ≤ maxWidth)

/-- The fit test performed for a candidate size inside the binary-search
loop of `find_optimal_font_size` (steps 1–4 of the loop body). -/
def fitsAt (M : Measure) (text : String) (size maxWidth : Nat)
    (maxHeight lineSpacing paragraphSpacing : Int) : Bool :=
  let lines := wrapText text (calculateWrapWidth M size maxWidth)
  linesFitWidth M lines size maxWidth &&
    decide (calculateTextHeight M lines size lineSpacing paragraphSpacing ≤ maxHeight)

/-- The binary-search loop of `find_optimal_font_size` over Python ints:
`low`/`high`/`best` with `mid = (low+high)//2`.  When `mid = 0` fails the
fit test Python would set `high = -1` and the loop would stop; the model
returns `best` directly in that case. -/
def fontSearch (fit : Nat → Bool) (low high best : Nat) : Nat :=
  if low ≤ high then
    if fit ((low + high) / 2) then
      fontSearch fit ((low + high) / 2 + 1) high ((low + high) / 2)
    else if (low + high) / 2 = 0 then best
    else fontSearch fit low ((low + high) / 2 - 1) best
  else best
termination_by high + 1 - low
decreasing_by
  · omega
  · omega

def findOptimalFontSize (M : Measure) (text : String)
    (minSize maxSize maxWidth : Nat)
    (maxHeight lineSpacing paragraphSpacing : Int) : Nat :=
  fontSearch
    (fun mid => fitsAt M text mid maxWidth maxHeight lineSpacing paragraphSpacing)
    minSize maxSize minSize

/-- The `while font_size >= min_font_size:` shrink loop of
`render_text_centered` when an explicit `wrap_width` is supplied; the
result is the Python int value of `font_size` after the loop, which is
`min_font_size - 1` when no size fits. -/
def shrinkLoop (fits : Nat → Bool) (minSize : Nat) : Nat → Int
  | 0 => if minSize ≤ 0 then (if fits 0 then (0 : Int) else -1) else (0 : Int)
  | fs + 1 =>
    if minSize ≤ fs + 1 then
      if fits (fs + 1) then ((fs + 1 : Nat) : Int)
      else shrinkLoop fits minSize fs
    else ((fs + 1 : Nat) : Int)

/-- Font size actually used by `render_text_centered` when `wrap_width` is
given: height is computed at the default spacings `(2, 10)`. -/
def renderCenteredFontSize (M : Measure) (text : String) (wrapWidth : Nat)
    (maxHeight : Int) (maxFontSize minFontSize : Nat) : Int :=
  shrinkLoop
    (fun fs => decide (calculateTextHeight M (wrapText text wrapWidth) fs 2 10 ≤ maxHeight))
    minFontSize maxFontSize

/-- **C8.** The character wrap budget derived by the pipeline is always at
least 1: the division by the reference glyph's width is guarded when that
width is 0, and the floored quotient is clamped with `max(1, ·)`, so the
wrap stage never receives a budget below 1. -/
theorem wrap_budget_at_least_one (M : Measure) (fontSize maxWidth : Nat) :
    1 ≤ calculateWrapWidth M fontSize maxWidth := by
  rw [calculateWrapWidth]
  by_cases h : (M "M" fontSize).1 = 0
  · simp [h]
  · simp only [h, if_neg, if_false]
    exact le_max_left _ _

/-- The all-zero metrics backend: every string measures 0×0 pixels. -/
def measureZero : Measure := fun _ _ => (0, 0)

/-- Per-entry height contribution of a wrapped line entry. -/
def entryHeight (M : Measure) (fontSize : Nat)
    (lineSpacing paragraphSpacing : Int) (l : Option String) : Int :=
  match l with
  | none => paragraphSpacing
  | some s => ((M s fontSize).2 : Int) + lineSpacing

/-- Modelled from the spec's words for C7: the sum over entries of
(`measured height + line_spacing` for text, `paragraph_spacing` for a
break) minus one trailing `line_spacing`, subtracted unconditionally. -/
def claimedTextHeight (M : Measure) (lines : List (Option String))
    (fontSize : Nat) (lineSpacing paragraphSpacing : Int) : Int :=
  (lines.map (entryHeight M fontSize lineSpacing paragraphSpacing)).sum - lineSpacing

/-- **C7 counterexample.** On the non-empty entry list `[break]` with
`line_spacing = 2`, `paragraph_spacing = 10` the code returns 10 (the
subtraction is skipped because the final entry is a break marker), while
the claimed formula yields 8. -/
theorem calculate_text_height_counterexample :
    calculateTextHeight measureZero [none] 12 2 10 = 10 ∧
    claimedTextHeight measureZero [none] 12 2 10 = 8 ∧
    calculateTextHeight measureZero [none] 12 2 10 ≠
      claimedTextHeight measureZero [none] 12 2 10 := by
  refine ⟨by decide, by decide, by decide⟩

theorem foldl_entryHeight (M : Measure) (fontSize : Nat)
    (lineSpacing paragraphSpacing : Int) :
    ∀ (lines : List (Option String)) (a : Int),
      lines.foldl
        (fun acc l =>
          match l with
          | none => acc + paragraphSpacing
          | some s => acc + (((M s fontSize).2 : Int) + lineSpacing))
        a
      = a + (lines.map (entryHeight M fontSize lineSpacing paragraphSpacing)).sum := by
  intro lines
  induction lines with
  | nil => intro a; simp
  | cons l ls ih =>
    intro a
    rw [List.foldl_cons, ih, List.map_cons, List.sum_cons]
    cases l with
    | none => rw [entryHeight]; ring
    | some s => rw [entryHeight]; ring

theorem entryHeight_nonneg (M : Measure) (fontSize : Nat)
    (lineSpacing paragraphSpacing : Int)
    (hls : 0 ≤ lineSpacing) (hps : 0 ≤ paragraphSpacing) (l : Option String) :
    0 ≤ entryHeight M fontSize lineSpacing paragraphSpacing l := by
  cases l with
  | none => exact hps
  | some s =>
    rw [entryHeight]
    have : (0 : Int) ≤ ((M s fontSize).2 : Int) := Int.natCast_nonneg _
    linarith

/-- **C7 (amended).** For nonnegative spacings and a non-empty entry list,
the computed total equals the sum of per-entry contributions minus one
trailing `line_spacing` *when the final entry is a text line*, and minus
nothing when the final entry is a paragraph-break marker. -/
theorem calculate_text_height_amended (M : Measure) (lines : List (Option String))
    (fontSize : Nat) (lineSpacing paragraphSpacing : Int)
    (hls : 0 ≤ lineSpacing) (hps : 0 ≤ paragraphSpacing) (hne : lines ≠ []) :
    calculateTextHeight M lines fontSize lineSpacing paragraphSpacing =
      (lines.map (entryHeight M fontSize lineSpacing paragraphSpacing)).sum -
        (if lastIsText lines = true then lineSpacing else 0) := by
  simp only [calculateTextHeight]
  rw [foldl_entryHeight, zero_add]
  by_cases hlast : lastIsText lines = true
  · have hgl : lines.getLast? = some (lines.getLast hne) :=
      List.getLast?_eq_getLast lines hne
    obtain ⟨s0, hs0⟩ : ∃ s, lines.getLast hne = some s := by
      rw [lastIsText, hgl] at hlast
      cases hlget : lines.getLast hne with
      | none => rw [hlget] at hlast; exact absurd hlast (by simp)
      | some s => exact ⟨s, rfl⟩
    have hsplit : lines.dropLast ++ [lines.getLast hne] = lines :=
      List.dropLast_append_getLast hne
    have hmap : lines.map (entryHeight M fontSize lineSpacing paragraphSpacing)
        = (lines.dropLast).map (entryHeight M fontSize lineSpacing paragraphSpacing)
          ++ [entryHeight M fontSize lineSpacing paragraphSpacing (lines.getLast hne)] := by
      conv_lhs => rw [← hsplit]
      rw [List.map_append, List.map_singleton]
    have hinit : 0 ≤ ((lines.dropLast).map
        (entryHeight M fontSize lineSpacing paragraphSpacing)).sum := by
      apply List.sum_nonneg
      intro x hx
      obtain ⟨l, _, rfl⟩ := List.mem_map.mp hx
      exact entryHeight_nonneg M fontSize lineSpacing paragraphSpacing hls hps l
    have hlastv : entryHeight M fontSize lineSpacing paragraphSpacing
        (lines.getLast hne) = ((M s0 fontSize).2 : Int) + lineSpacing := by
      rw [hs0, entryHeight]
    have hlb : lineSpacing ≤
        (lines.map (entryHeight M fontSize lineSpacing paragraphSpacing)).sum := by
      rw [hmap, List.sum_append, List.sum_singleton, hlastv]
      have : (0 : Int) ≤ ((M s0 fontSize).2 : Int) := Int.natCast_nonneg _
      linarith
    by_cases hpos : 0 <
        (lines.map (entryHeight M fontSize lineSpacing paragraphSpacing)).sum
    · rw [if_pos ⟨hpos, hne, hlast⟩, if_pos hlast]
    · have hls0 : lineSpacing = 0 := by
        have : (lines.map (entryHeight M fontSize lineSpacing paragraphSpacing)).sum ≤ 0 :=
          le_of_not_lt hpos
        linarith
      rw [if_neg (fun hcon => hpos hcon.1), if_pos hlast, hls0, sub_zero]
  · rw [if_neg hlast]
    rw [if_neg (fun hcon => hlast hcon.2.2), sub_zero]

/-- Witness for the amended C7 on a text-final entry list. -/
theorem calculate_text_height_amended_witness :
    calculateTextHeight measureZero [none, some "a"] 12 2 10 =
      (([none, some "a"] : List (Option String)).map
        (entryHeight measureZero 12 2 10)).sum -
        (if lastIsText [none, some "a"] = true then 2 else 0) :=
  calculate_text_height_amended measureZero [none, some "a"] 12 2 10
    (by decide) (by decide) (by decide)

/-- The metrics backend used for the C6 failing input: every line measures
1×1000 pixels, so no font size in range fits a 10px-high box. -/
def measureTall : Measure := fun _ _ => (1, 1000)

/-- **C6 (code bug).** `render_text_centered` with an explicit `wrap_width`
decrements `font_size` past the minimum when nothing fits: at
`max_font_size = 12`, `min_font_size = 10`, `max_height = 10` and a metrics
backend whose lines are 1000px tall, the loop exits with
`font_size = 9 = min_font_size - 1`, and the text is drawn below the
documented lower bound instead of at exactly `min_font_size`. -/
theorem render_centered_below_min_font_size :
    renderCenteredFontSize measureTall "hello" 5 10 12 10 = 9 ∧ (9 : Int) < 10 := by
  refine ⟨by decide, by decide⟩

/-! ### C3: word splitting and the line-length bound -/

theorem sumLen_nil : sumLen [] = 0 := rfl

theorem sumLen_cons (c : List Char) (l : List (List Char)) :
    sumLen (c :: l) = c.length + sumLen l := by
  simp [sumLen]

theorem sumLen_append (a b : List (List Char)) :
    sumLen (a ++ b) = sumLen a + sumLen b := by
  simp [sumLen]

theorem sumLen_dropLast_le (l : List (List Char)) : sumLen l.dropLast ≤ sumLen l := by
  induction l with
  | nil => exact Nat.le_refl _
  | cons c cs ih =>
    cases cs with
    | nil => simp [sumLen]
    | cons d ds =>
      rw [List.dropLast_cons₂, sumLen_cons, sumLen_cons]
      omega

theorem greedyTake_le (width : Nat) :
    ∀ (cs : List (List Char)) (curLen : Nat), curLen ≤ width →
      curLen + sumLen (greedyTake width curLen cs).1 ≤ width := by
  intro cs
  induction cs with
  | nil =>
    intro curLen h
    simpa [greedyTake, sumLen_nil] using h
  | cons c cs ih =>
    intro curLen h
    rw [greedyTake]
    by_cases hfit : curLen + c.length ≤ width
    · rw [if_pos hfit]
      have := ih (curLen + c.length) hfit
      simp only [sumLen_cons]
      omega
    · rw [if_neg hfit]
      simpa [sumLen_nil] using h

theorem handleLongWord_piece_le (width curLen : Nat) (c : List Char)
    (hW : 1 ≤ width) :
    (handleLongWord width curLen c).1.length ≤ width - curLen := by
  rw [handleLongWord]
  have hnlt : ¬ width < 1 := by omega
  simp only [hnlt, if_false, List.length_take]
  omega

theorem fillLine_bound (width : Nat) (hW : 1 ≤ width) (chunks : List (List Char)) :
    sumLen (fillLine width chunks).1 ≤ width := by
  have hg : sumLen (greedyTake width 0 chunks).1 ≤ width := by
    have := greedyTake_le width chunks 0 (Nat.zero_le _)
    omega
  rw [fillLine]
  split
  · exact hg
  · next c cs heq =>
    by_cases hlong : width < c.length
    · rw [if_pos hlong]
      simp only [sumLen_append, sumLen_cons, sumLen_nil]
      have := handleLongWord_piece_le width (sumLen (greedyTake width 0 chunks).1) c hW
      omega
    · rw [if_neg hlong]
      exact hg

theorem dropTrailingWs_flatten_le (width : Nat) (hW : 1 ≤ width)
    (ch : List (List Char)) :
    ((dropTrailingWs (fillLine width ch).1).flatten).length ≤ width := by
  rw [List.length_flatten]
  have h1 : sumLen (dropTrailingWs (fillLine width ch).1)
      ≤ sumLen (fillLine width ch).1 := by
    rw [dropTrailingWs]
    split
    · exact sumLen_dropLast_le _
    · exact Nat.le_refl _
  have h2 := fillLine_bound width hW ch
  calc ((dropTrailingWs (fillLine width ch).1).map List.length).sum
      = sumLen (dropTrailingWs (fillLine width ch).1) := rfl
    _ ≤ width := le_trans h1 h2

theorem wrapStep_lines_bound (width : Nat) (hW : 1 ≤ width)
    (chunks lines : List (List Char))
    (hinv : ∀ l ∈ lines, l.length ≤ width) :
    ∀ l ∈ (wrapStep width chunks lines).2, l.length ≤ width := by
  intro l hl
  cases chunks with
  | nil => exact hinv l hl
  | cons c0 cs0 =>
    simp only [wrapStep] at hl
    split at hl <;> split at hl
    all_goals
      first
        | exact hinv l hl
        | (rcases List.mem_append.mp hl with h | h
           · exact hinv l h
           · rw [List.mem_singleton] at h
             subst h
             exact dropTrailingWs_flatten_le width hW _)

theorem wrapChunksLoop_bound (width : Nat) (hW : 1 ≤ width) :
    ∀ (fuel : Nat) (chunks lines : List (List Char)),
      (∀ l ∈ lines, l.length ≤ width) →
      ∀ l ∈ wrapChunksLoop width fuel chunks lines, l.length ≤ width := by
  intro fuel
  induction fuel with
  | zero => intro chunks lines hinv l hl; exact hinv l hl
  | succ fuel ih =>
    intro chunks lines hinv l hl
    cases chunks with
    | nil => exact hinv l hl
    | cons c0 cs0 =>
      exact ih _ _ (wrapStep_lines_bound width hW (c0 :: cs0) lines hinv) l hl

theorem textwrapWrap_bound (width : Nat) (hW : 1 ≤ width) (text : String) :
    ∀ s ∈ textwrapWrap width text, s.length ≤ width := by
  intro s hs
  simp only [textwrapWrap] at hs
  rcases List.mem_map.mp hs with ⟨l, hl, rfl⟩
  have := wrapChunksLoop_bound width hW _ _ []
    (by intro l0 h0; exact absurd h0 (List.not_mem_nil l0)) l hl
  exact this

/-- **C3 counterexample.** A single word of six characters wrapped at width
3 is *split* into `["abc", "def"]` by `textwrap.wrap`'s default
`break_long_words=True`; it is not emitted as its own over-long line. -/
theorem wrap_splits_long_word :
    wrapText "abcdef" 3 = [some "abc", some "def"] ∧
    some "abcdef" ∉ wrapText "abcdef" 3 := by
  refine ⟨by decide, by decide⟩

/-- **C3 (amended).** For every text and wrap width `W ≥ 1`, *no* emitted
line exceeds `W` characters; a word longer than `W` is split into chunks of
at most `W` characters (without hyphenation) rather than emitted as an
over-long line of its own. -/
theorem wrap_text_line_length_bounded (text : String) (W : Nat) (hW : 1 ≤ W) :
    ∀ s : String, some s ∈ wrapText text W → s.length ≤ W := by
  suffices h : ∀ (paras : List String) (acc : List (Option String)),
      (∀ s : String, some s ∈ acc → s.length ≤ W) →
      ∀ s : String, some s ∈ paras.foldl
        (fun lines para =>
          if para.data.any (fun c => !c.isWhitespace) then
            lines ++ (textwrapWrap W para).map some
          else lines ++ [none])
        acc → s.length ≤ W by
    intro s hs
    exact h (splitlines text) []
      (by intro s0 hs0; exact absurd hs0 (List.not_mem_nil _)) s hs
  intro paras
  induction paras with
  | nil => intro acc hacc s hs; exact hacc s hs
  | cons p ps ih =>
    intro acc hacc s hs
    rw [List.foldl_cons] at hs
    refine ih _ ?_ s hs
    intro s0 hs0
    by_cases hc : p.data.any (fun c => !c.isWhitespace)
    · rw [if_pos hc] at hs0
      rcases List.mem_append.mp hs0 with h0 | h0
      · exact hacc s0 h0
      · rcases List.mem_map.mp h0 with ⟨t, ht, hteq⟩
        cases hteq
        exact textwrapWrap_bound W hW p s0 ht
    · rw [if_neg hc] at hs0
      rcases List.mem_append.mp hs0 with h0 | h0
      · exact hacc s0 h0
      · rw [List.mem_singleton] at h0
        exact absurd h0 (by simp)

/-- Witness for the amended C3 at the counterexample's input and its first
emitted line. -/
theorem wrap_text_line_length_bounded_witness :
    ("abc" : String).length ≤ 3 :=
  wrap_text_line_length_bounded "abcdef" 3 (by decide) "abc" (by decide)

/-! ### C1: solver optimality

The spec's correctness rationale for the binary search requires the fit
predicate to be monotone ("fits" is downward closed in the font size); the
metrics backend is external, so that requirement is carried as a
hypothesis, bounded to the searched range. -/

theorem fontSearch_correct (fit : Nat → Bool) (minS maxS : Nat)
    (hmono : ∀ s t : Nat, minS ≤ s → s ≤ t → t ≤ maxS →
      fit t = true → fit s = true) :
    ∀ (n low high best : Nat), high + 1 - low ≤ n →
      minS ≤ low → high ≤ maxS → minS ≤ best → best ≤ maxS →
      (fit best = true ∨ best = minS) →
      (∀ s, minS ≤ s → s < low → fit s = true → s ≤ best) →
      (∀ s, high < s → s ≤ maxS → fit s = false) →
      minS ≤ fontSearch fit low high best ∧
      fontSearch fit low high best ≤ maxS ∧
      (fit (fontSearch fit low high best) = true ∨
        fontSearch fit low high best = minS) ∧
      (∀ s, minS ≤ s → s ≤ maxS → fit s = true →
        s ≤ fontSearch fit low high best) := by
  intro n
  induction n with
  | zero =>
    intro low high best hn h1 h2 h3 h4 h5 h6 h7
    have hlh : ¬ low ≤ high := by omega
    rw [fontSearch, if_neg hlh]
    refine ⟨h3, h4, h5, ?_⟩
    intro s hs1 hs2 hsf
    by_cases hsh : s ≤ high
    · exact h6 s hs1 (by omega) hsf
    · rw [h7 s (by omega) hs2] at hsf
      exact absurd hsf (by simp)
  | succ n ih =>
    intro low high best hn h1 h2 h3 h4 h5 h6 h7
    by_cases hlh : low ≤ high
    · have hmidlb : low ≤ (low + high) / 2 := by omega
      have hmidub : (low + high) / 2 ≤ high := by omega
      by_cases hfit : fit ((low + high) / 2) = true
      · rw [fontSearch, if_pos hlh, if_pos hfit]
        apply ih ((low + high) / 2 + 1) high ((low + high) / 2)
        · omega
        · omega
        · exact h2
        · omega
        · omega
        · exact Or.inl hfit
        · intro s hs1 hs2 _
          omega
        · exact h7
      · rw [fontSearch, if_pos hlh, if_neg hfit]
        by_cases hmid0 : (low + high) / 2 = 0
        · rw [if_pos hmid0]
          refine ⟨h3, h4, h5, ?_⟩
          intro s hs1 hs2 hsf
          have : fit ((low + high) / 2) = true := by
            rw [hmid0]
            exact hmono 0 s (by omega) (by omega) hs2 hsf
          exact absurd this hfit
        · rw [if_neg hmid0]
          apply ih low ((low + high) / 2 - 1) best
          · omega
          · exact h1
          · omega
          · exact h3
          · exact h4
          · exact h5
          · exact h6
          · intro s hs1 hs2
            by_cases hsh : high < s
            · exact h7 s hsh hs2
            · cases hfs : fit s with
              | false => rfl
              | true =>
                have := hmono ((low + high) / 2) s (by omega) (by omega) hs2 hfs
                exact absurd this hfit
    · rw [fontSearch, if_neg hlh]
      refine ⟨h3, h4, h5, ?_⟩
      intro s hs1 hs2 hsf
      by_cases hsh : s ≤ high
      · exact h6 s hs1 (by omega) hsf
      · rw [h7 s (by omega) hs2] at hsf
        exact absurd hsf (by simp)

/-- **C1.** For `min_size ≤ max_size` and a fit predicate that is downward
closed in the font size on the searched range (the spec's stated soundness
requirement for the binary search), `find_optimal_font_size` returns a size
in `[min_size, max_size]` that fits and is the largest fitting size when
any size in range fits, and returns exactly `min_size` when no size in
range fits. -/
theorem find_optimal_font_size_optimal (M : Measure) (text : String)
    (minSize maxSize maxWidth : Nat)
    (maxHeight lineSpacing paragraphSpacing : Int)
    (hrange : minSize ≤ maxSize)
    (hmono : ∀ s t : Nat, minSize ≤ s → s ≤ t → t ≤ maxSize →
      fitsAt M text t maxWidth maxHeight lineSpacing paragraphSpacing = true →
      fitsAt M text s maxWidth maxHeight lineSpacing paragraphSpacing = true) :
    (minSize ≤ findOptimalFontSize M text minSize maxSize maxWidth
        maxHeight lineSpacing paragraphSpacing ∧
      findOptimalFontSize M text minSize maxSize maxWidth
        maxHeight lineSpacing paragraphSpacing ≤ maxSize) ∧
    ((∃ s, minSize ≤ s ∧ s ≤ maxSize ∧
        fitsAt M text s maxWidth maxHeight lineSpacing paragraphSpacing = true) →
      fitsAt M text (findOptimalFontSize M text minSize maxSize maxWidth
          maxHeight lineSpacing paragraphSpacing)
        maxWidth maxHeight lineSpacing paragraphSpacing = true ∧
      ∀ s, minSize ≤ s → s ≤ maxSize →
        fitsAt M text s maxWidth maxHeight lineSpacing paragraphSpacing = true →
        s ≤ findOptimalFontSize M text minSize maxSize maxWidth
          maxHeight lineSpacing paragraphSpacing) ∧
    ((∀ s, minSize ≤ s → s ≤ maxSize →
        fitsAt M text s maxWidth maxHeight lineSpacing paragraphSpacing = false) →
      findOptimalFontSize M text minSize maxSize maxWidth
        maxHeight lineSpacing paragraphSpacing = minSize) := by
  have h := fontSearch_correct
    (fun mid => fitsAt M text mid maxWidth maxHeight lineSpacing paragraphSpacing)
    minSize maxSize hmono (maxSize + 1 - minSize) minSize maxSize minSize
    (Nat.le_refl _) (Nat.le_refl _) (Nat.le_refl _) (Nat.le_refl _) hrange
    (Or.inr rfl)
    (fun s hs1 hs2 _ => absurd hs2 (by omega))
    (fun s hs1 hs2 => absurd hs1 (by omega))
  obtain ⟨hb1, hb2, hb3, hmax⟩ := h
  refine ⟨⟨hb1, hb2⟩, ?_, ?_⟩
  · rintro ⟨s0, hs0a, hs0b, hs0f⟩
    have hs0r := hmax s0 hs0a hs0b hs0f
    refine ⟨?_, hmax⟩
    rcases hb3 with hf | hmin
    · exact hf
    · have hs0min : s0 = minSize := by omega
      show fitsAt M text (fontSearch
        (fun mid => fitsAt M text mid maxWidth maxHeight lineSpacing paragraphSpacing)
        minSize maxSize minSize) maxWidth maxHeight lineSpacing paragraphSpacing = true
      rw [hmin, ← hs0min]
      exact hs0f
  · intro hnone
    rcases hb3 with hf | hmin
    · exfalso
      have hf' : fitsAt M text (fontSearch
          (fun mid => fitsAt M text mid maxWidth maxHeight lineSpacing paragraphSpacing)
          minSize maxSize minSize) maxWidth maxHeight lineSpacing paragraphSpacing
          = true := hf
      rw [hnone _ hb1 hb2] at hf'
      exact absurd hf' (by simp)
    · exact hmin

/-- With the all-zero metrics every size fits trivially inside any box. -/
theorem fitsAt_measureZero_all (s : Nat) :
    fitsAt measureZero "hi" s 100 100 0 0 = true := by
  have hcw : calculateWrapWidth measureZero s 100 = 1 := rfl
  have hwrap : wrapText "hi" (calculateWrapWidth measureZero s 100)
      = [some "h", some "i"] := by
    rw [hcw]
    decide
  simp only [fitsAt, hwrap, linesFitWidth, calculateTextHeight, lastIsText,
    measureZero, List.all_cons, List.all_nil, List.foldl_cons, List.foldl_nil]
  rfl

/-- Witness for C1: the range `[10, 12]` with all-zero metrics, where the
fit predicate is constantly true, hence monotone. -/
theorem find_optimal_font_size_optimal_witness :
    ((10 : Nat) ≤ 12) ∧
    ((10 ≤ findOptimalFontSize measureZero "hi" 10 12 100 100 0 0 ∧
      findOptimalFontSize measureZero "hi" 10 12 100 100 0 0 ≤ 12) ∧
    ((∃ s, 10 ≤ s ∧ s ≤ 12 ∧ fitsAt measureZero "hi" s 100 100 0 0 = true) →
      fitsAt measureZero "hi" (findOptimalFontSize measureZero "hi" 10 12 100 100 0 0)
        100 100 0 0 = true ∧
      ∀ s, 10 ≤ s → s ≤ 12 → fitsAt measureZero "hi" s 100 100 0 0 = true →
        s ≤ findOptimalFontSize measureZero "hi" 10 12 100 100 0 0) ∧
    ((∀ s, 10 ≤ s → s ≤ 12 → fitsAt measureZero "hi" s 100 100 0 0 = false) →
      findOptimalFontSize measureZero "hi" 10 12 100 100 0 0 = 10)) :=
  ⟨by decide, find_optimal_font_size_optimal measureZero "hi" 10 12 100 100 0 0
    (by decide) (fun s t _ _ _ _ => fitsAt_measureZero_all s)⟩

end SpellCards
